import Mathlib

/-!
Verification development for the AIrsenal ops-management repository.

The file gives a shallow embedding of the job orchestration and execution
engine (queue, executor, output parsing, broadcast delivery) and of the
frontend helpers that drive it (the URL normalisation in App.js, the
LogViewer subscription component, the parameter building of
OptimisationPage), together with theorems checking the written
specification against this embedding.

The backend engine modules themselves (jobs/queue.py, jobs/executor.py,
jobs/parser.py, jobs/websocket_manager.py) are not present in the
repository snapshot; only their architecture document and their frontend
callers are.  Every definition that embeds one of those missing modules
is marked as modelled from the spec in its doc comment and follows the
wording of the specification.  Definitions taken from files that are
present (App.js, LogViewer.js, JobsPage.js, OptimisationPage.js) follow
the JavaScript source.
-/

/-- Empty string constant, used so that string literals never directly
follow a name in term position. -/
def emptyText : String := ""

/-- Newline separator used when splitting captured output into lines. -/
def nlText : String := "\n"

/-- Single space separator for whitespace tokenisation. -/
def spText : String := " "

/-- The slash character stripped by the URL normaliser. -/
def slashChar : Char := '/'

/-- Job status values, as used across the backend job schema and the
frontend status rendering in JobsPage.js. -/
inductive Status
  | pending
  | running
  | cancelling
  | completed
  | failed
  | cancelled
  deriving DecidableEq, Repr

/-- A status is terminal when the job can change no further. -/
def Status.isTerminal : Status → Bool
  | .completed => true
  | .failed => true
  | .cancelled => true
  | _ => false

/-- A status is active when the job owns the single worker, that is when
it is running or cancelling. -/
def Status.isActive : Status → Bool
  | .running => true
  | .cancelling => true
  | _ => false

/-- The closed set of command kinds, as listed by getCommandLabel in
JobsPage.js and submitted by the pages. -/
inductive Command
  | setup_db
  | update_db
  | predict
  | optimize
  | pipeline
  deriving DecidableEq, Repr

/-- Result of the JS parseInt builtin: NaN or an integer. -/
inductive JSNum
  | nan
  | int (v : Int)
  deriving DecidableEq, Repr

/-- Longest run of decimal digits read by parseInt, with the sign already
decided; an empty run yields NaN. -/
def jsDigits (l : List Char) (neg : Bool) : JSNum :=
  let ds := l.takeWhile Char.isDigit
  if ds.isEmpty then .nan
  else
    let n : Nat := ds.foldl (fun acc c => acc * 10 + (c.toNat - 48)) 0
    if neg then .int (-(n : Int)) else .int (n : Int)

/-- Model of the JS parseInt builtin in base 10: leading whitespace is
skipped, an optional sign is read, then the longest run of decimal
digits; NaN when that run is empty. -/
def jsParseInt (s : String) : JSNum :=
  let t := s.data.dropWhile Char.isWhitespace
  match t with
  | c :: rest =>
      if c = '-' then jsDigits rest true
      else if c = '+' then jsDigits rest false
      else jsDigits t false
  | [] => .nan

/-- JS comparison of a number with 0 from the chip guards of
OptimisationPage.runOptimisation; false when the operand is NaN. -/
def JSNum.gtZero : JSNum → Bool
  | .nan => false
  | .int v => decide (0 < v)

/-- The parameters object of a job request.  A key maps to none when it
is absent from the object.  Field names follow the backend job schema
and the frontend pages that build the object. -/
structure JobParams where
  weeks_ahead : Option JSNum
  wildcard_week : Option JSNum
  free_hit_week : Option JSNum
  triple_captain_week : Option JSNum
  bench_boost_week : Option JSNum
  deriving DecidableEq, Repr

/-- A parameters object with every key absent. -/
def noParams : JobParams := ⟨none, none, none, none, none⟩

/-- One ranked player row of a parsed prediction output, as rendered by
renderJobOutput in JobsPage.js. -/
structure PlayerLine where
  rank : Nat
  player : String
  expected_points : String
  deriving DecidableEq, Repr

/-- One transfer suggestion of a parsed optimisation output, as rendered
by renderJobOutput in JobsPage.js. -/
structure TransferLine where
  out_player : String
  in_player : String
  cost : String
  gain : String
  deriving DecidableEq, Repr

/-- Structured result of the output parsing stage, matching the shapes
consumed by renderJobOutput in JobsPage.js. -/
inductive ParsedOutput
  | prediction (headline : Option String) (players : List PlayerLine)
      (summary_text : String)
  | optimisation (transfers : List TransferLine) (captain : Option String)
      (vice_captain : Option String) (expected_points : Option String)
      (summary_text : String)
  | generic (summary_text : String)
  deriving DecidableEq, Repr

/-- The summary text carried by any parsed output variant. -/
def ParsedOutput.summaryText : ParsedOutput → String
  | .prediction _ _ s => s
  | .optimisation _ _ _ _ s => s
  | .generic s => s

/-- Persisted job record, field for field the jobs collection schema of
the backend architecture document. -/
structure Job where
  id : Nat
  command : Command
  parameters : JobParams
  status : Status
  logs : List String
  output : Option ParsedOutput
  error : Option String
  retry_count : Nat
  max_retries : Nat
  created_at : Nat
  started_at : Option Nat
  completed_at : Option Nat
  deriving DecidableEq, Repr

/-- Trailing-slash stripper normalizeBackendUrl from App.js: a falsy
value maps to the empty string, any other value has its trailing run of
slash characters removed, which is what the replace of the anchored
regex does. -/
def normalizeBackendUrl (s : String) : String :=
  if s = emptyText then emptyText
  else String.mk (List.rdropWhile (fun c => c = slashChar) s.data)

/-- The api path suffix appended to the backend URL in App.js. -/
def apiSuffix : String := "/api"

/-- Model of the JS string trim applied to the environment value in
App.js: whitespace removed from both ends. -/
def jsTrim (s : String) : String :=
  String.mk (List.rdropWhile Char.isWhitespace (s.data.dropWhile Char.isWhitespace))

/-- Environment branch of resolveBackendUrl in App.js: the trimmed
environment value is normalised, and a nonempty result is used as the
backend URL. -/
def resolveFromEnv (envUrl : String) : Option String :=
  let u := normalizeBackendUrl (jsTrim envUrl)
  if u = emptyText then none else some u

/-- The API constant of App.js: the backend URL with the api suffix
appended when a backend URL resolved, the bare suffix otherwise. -/
def apiFor : Option String → String
  | some backendUrl => backendUrl ++ apiSuffix
  | none => apiSuffix

/-- The left companion of rdropWhile: whatever element ends the result
fails the predicate. -/
theorem rdropWhile_getLast?_not {α : Type} (p : α → Bool) (l : List α)
    (x : α) (hx : (List.rdropWhile p l).getLast? = some x) : p x = false := by
  have h := List.head?_dropWhile_not p l.reverse
  rw [List.rdropWhile, List.getLast?_reverse] at hx
  rw [hx] at h
  exact h

/-- Helper: the normaliser never leaves a trailing slash. -/
theorem normalizeBackendUrl_no_trailing (s : String) :
    (normalizeBackendUrl s).data.getLast? ≠ some slashChar := by
  unfold normalizeBackendUrl
  by_cases h : s = emptyText
  · simp [h, emptyText]
  · simp only [h, if_false]
    intro hcon
    have := rdropWhile_getLast?_not (fun c => c = slashChar) s.data slashChar hcon
    simp at this

/-- Helper: the normaliser is idempotent. -/
theorem normalizeBackendUrl_idem (s : String) :
    normalizeBackendUrl (normalizeBackendUrl s) = normalizeBackendUrl s := by
  unfold normalizeBackendUrl
  by_cases h : s = emptyText
  · simp [h]
  · simp only [h, if_false]
    by_cases h2 : String.mk (List.rdropWhile (fun c => c = slashChar) s.data) = emptyText
    · simp [h2]
    · simp only [h2, if_false]
      congr 1
      exact List.rdropWhile_idempotent _ _

/-- C10: normalizeBackendUrl is idempotent and trailing-slash-free, and
the API base derived from an environment backend URL is that URL, with
no slash of its own, followed by the api suffix, so no double slash
arises at the junction. -/
theorem c10_normalizeBackendUrl_spec :
    (∀ s : String, (normalizeBackendUrl s).data.getLast? ≠ some slashChar) ∧
    (∀ s : String, normalizeBackendUrl (normalizeBackendUrl s) = normalizeBackendUrl s) ∧
    (∀ envUrl u : String, resolveFromEnv envUrl = some u →
      apiFor (some u) = u ++ apiSuffix ∧ u.data.getLast? ≠ some slashChar) := by
  refine ⟨normalizeBackendUrl_no_trailing, normalizeBackendUrl_idem, ?_⟩
  intro envUrl u hu
  refine ⟨rfl, ?_⟩
  unfold resolveFromEnv at hu
  by_cases h : normalizeBackendUrl (jsTrim envUrl) = emptyText
  · simp [h] at hu
  · simp only [h, if_false, Option.some.injEq] at hu
    rw [← hu]
    exact normalizeBackendUrl_no_trailing (jsTrim envUrl)

/-- Example environment value with trailing slashes for the C10 witness. -/
def envUrlEx : String := "https://backend.example//"

/-- Example normalised backend URL for the C10 witness. -/
def backendUrlEx : String := "https://backend.example"

/-- C10 witness: the spec theorem applied to a concrete environment URL
with a trailing run of slashes. -/
theorem c10_normalizeBackendUrl_spec_witness :
    apiFor (some backendUrlEx) = backendUrlEx ++ apiSuffix ∧
    backendUrlEx.data.getLast? ≠ some slashChar :=
  c10_normalizeBackendUrl_spec.2.2 envUrlEx backendUrlEx (by decide)

/-- Modelled from the spec: jobs/queue.py and jobs/executor.py are absent
from the snapshot; section 3 (logs field) and section 4.2 step 4 describe
the persisted log append: the line goes at the end, and the oldest lines
beyond the configured cap are dropped. -/
def appendLogLine (cap : Nat) (logs : List String) (line : String) : List String :=
  if cap < (logs ++ [line]).length then
    (logs ++ [line]).drop ((logs ++ [line]).length - cap)
  else logs ++ [line]

/-- Helper: one capped append is exactly the length-cap suffix of the
appended list. -/
theorem appendLogLine_eq_drop (cap : Nat) (logs : List String) (line : String) :
    appendLogLine cap logs line
      = (logs ++ [line]).drop ((logs ++ [line]).length - cap) := by
  unfold appendLogLine
  split
  · rfl
  · next h =>
    have hle : (logs ++ [line]).length ≤ cap := Nat.le_of_not_lt h
    rw [Nat.sub_eq_zero_of_le hle, List.drop_zero]

/-- Helper: taking the length-n suffix, appending, and taking the
length-n suffix again is the same as appending and taking the suffix
once. -/
theorem drop_last_append {α : Type} (l ws : List α) (n : Nat) :
    (l.drop (l.length - n) ++ ws).drop ((l.drop (l.length - n) ++ ws).length - n)
      = (l ++ ws).drop ((l ++ ws).length - n) := by
  by_cases h : l.length ≤ n
  · rw [Nat.sub_eq_zero_of_le h, List.drop_zero]
  · have hk : l.length - n ≤ l.length := Nat.sub_le _ _
    simp only [← List.drop_append_of_le_length hk]
    simp only [List.length_drop, List.length_append, List.drop_drop]
    congr 1
    omega

/-- Helper: folding capped appends over emitted lines yields the
length-cap suffix of the whole emitted sequence, provided the starting
store is within the cap. -/
theorem foldl_appendLogLine (cap : Nat) (ws : List String) :
    ∀ logs : List String, logs.length ≤ cap →
      List.foldl (appendLogLine cap) logs ws
        = (logs ++ ws).drop ((logs ++ ws).length - cap) := by
  induction ws with
  | nil =>
      intro logs h
      simp [Nat.sub_eq_zero_of_le h]
  | cons w ws ih =>
      intro logs h
      have hstep : appendLogLine cap logs w
          = (logs ++ [w]).drop ((logs ++ [w]).length - cap) :=
        appendLogLine_eq_drop cap logs w
      have hlen : (appendLogLine cap logs w).length ≤ cap := by
        rw [hstep]
        simp only [List.length_drop]
        omega
      calc List.foldl (appendLogLine cap) logs (w :: ws)
          = List.foldl (appendLogLine cap) (appendLogLine cap logs w) ws := rfl
        _ = ((appendLogLine cap logs w) ++ ws).drop
              (((appendLogLine cap logs w) ++ ws).length - cap) := ih _ hlen
        _ = ((logs ++ [w]) ++ ws).drop (((logs ++ [w]) ++ ws).length - cap) := by
              rw [hstep]
              exact drop_last_append (logs ++ [w]) ws cap
        _ = (logs ++ w :: ws).drop ((logs ++ w :: ws).length - cap) := by
              simp

/-- C6: the stored log count never exceeds the cap, and eviction is FIFO
by content: starting from empty, after any sequence of appends the store
is exactly the suffix of the emitted sequence, of length equal to the
cap once the cap is exceeded. -/
theorem c6_log_cap_fifo (cap : Nat) (ws : List String) :
    (List.foldl (appendLogLine cap) [] ws).length ≤ cap ∧
    List.foldl (appendLogLine cap) [] ws = ws.drop (ws.length - cap) ∧
    (cap ≤ ws.length → (List.foldl (appendLogLine cap) [] ws).length = cap) := by
  have h := foldl_appendLogLine cap ws [] (Nat.zero_le cap)
  simp only [List.nil_append] at h
  refine ⟨?_, h, ?_⟩
  · rw [h]
    simp only [List.length_drop]
    omega
  · intro hc
    rw [h]
    simp only [List.length_drop]
    omega

/-- Example log lines for witnesses. -/
def lineA : String := "alpha line"

/-- Second example log line. -/
def lineB : String := "beta line"

/-- Third example log line. -/
def lineC : String := "gamma line"

/-- C6 witness: with cap 2 and three emitted lines the store holds
exactly the last two lines. -/
theorem c6_log_cap_fifo_witness :
    List.foldl (appendLogLine 2) [] [lineA, lineB, lineC]
        = [lineA, lineB, lineC].drop ([lineA, lineB, lineC].length - 2) ∧
    (List.foldl (appendLogLine 2) [] [lineA, lineB, lineC]).length = 2 :=
  ⟨(c6_log_cap_fifo 2 [lineA, lineB, lineC]).2.1,
   (c6_log_cap_fifo 2 [lineA, lineB, lineC]).2.2 (by decide)⟩

/-- Subscriber-side view of one job: the component state of LogViewer.js. -/
structure ViewerState where
  logs : List String
  status : Status
  deriving DecidableEq, Repr

/-- Initial component state of LogViewer.js (the useState initial values). -/
def viewerInitial : ViewerState := { logs := [], status := .pending }

/-- The fetchLogs backfill of the LogViewer.js useEffect: the persisted
logs replace the view when nonempty, and the persisted status replaces
the view status (every status in the model is a truthy string in the
source). -/
def applyFetch (job : Job) (st : ViewerState) : ViewerState :=
  { logs := if 0 < job.logs.length then job.logs else st.logs,
    status := job.status }

/-- A live WebSocket event as decoded by ws.onmessage in LogViewer.js. -/
inductive WsEvent
  | log (message : String)
  | statusEvent (status : Status)
  deriving DecidableEq, Repr

/-- The ws.onmessage handler of LogViewer.js: a log event appends the
message at the end of the view, a status event replaces the status. -/
def onMessage (st : ViewerState) (e : WsEvent) : ViewerState :=
  match e with
  | .log m => { st with logs := st.logs ++ [m] }
  | .statusEvent s => { st with status := s }

/-- Subscription per the LogViewer.js useEffect: read the persisted job
state, then process the live events in arrival order. -/
def subscribeView (job : Job) (events : List WsEvent) : ViewerState :=
  events.foldl onMessage (applyFetch job viewerInitial)

/-- C1: subscribing to a job that is already terminal still retrieves
the final status and the capped tail of the persisted logs: the handle
reads persisted state on registration, and a terminal job publishes no
further live events, so no terminal event is missed; when the persisted
logs are the capped fold of the emitted lines, the view shows exactly
the capped suffix. -/
theorem c1_subscribe_terminal (job : Job) (h : job.status.isTerminal = true) :
    (subscribeView job []).status = job.status ∧
    (subscribeView job []).status.isTerminal = true ∧
    (subscribeView job []).logs = job.logs ∧
    (∀ (cap : Nat) (emitted : List String),
      job.logs = List.foldl (appendLogLine cap) [] emitted →
      (subscribeView job []).logs = emitted.drop (emitted.length - cap)) := by
  have hlogs : (subscribeView job []).logs = job.logs := by
    unfold subscribeView applyFetch viewerInitial
    cases hj : job.logs <;> simp [hj]
  have hstat : (subscribeView job []).status = job.status := rfl
  refine ⟨hstat, by rw [hstat]; exact h, hlogs, ?_⟩
  intro cap emitted he
  rw [hlogs, he]
  have := foldl_appendLogLine cap emitted [] (Nat.zero_le cap)
  simpa using this

/-- Example terminal job for the C1 witness. -/
def jobDoneEx : Job :=
  { id := 1, command := .predict, parameters := noParams, status := .completed,
    logs := [lineA, lineB], output := none, error := none, retry_count := 0,
    max_retries := 3, created_at := 0, started_at := some 1, completed_at := some 2 }

/-- C1 witness: the subscription view of an already-completed job shows
its final status and persisted logs. -/
theorem c1_subscribe_terminal_witness :
    (subscribeView jobDoneEx []).status = jobDoneEx.status ∧
    (subscribeView jobDoneEx []).logs = jobDoneEx.logs :=
  ⟨(c1_subscribe_terminal jobDoneEx rfl).1,
   (c1_subscribe_terminal jobDoneEx rfl).2.2.1⟩

/-- Newline character used by the line splitter. -/
def nlChar : Char := '\n'

/-- Space character used by the token splitter. -/
def spChar : Char := ' '

/-- Dot character of decimal number tokens. -/
def dotChar : Char := '.'

/-- Structural splitter of a character list on a separator character. -/
def splitChars (sep : Char) : List Char → List (List Char)
  | [] => [[]]
  | c :: cs =>
      match splitChars sep cs with
      | cur :: rest => if c = sep then [] :: cur :: rest else (c :: cur) :: rest
      | [] => [[c]]

/-- Modelled from the spec: the captured output of a run split into
lines; an empty capture has no lines, since a process that produces no
output at all is valid (section 4.2 edge cases). -/
def splitLines (text : String) : List String :=
  if text = emptyText then []
  else (splitChars nlChar text.data).map String.mk

/-- Nonempty whitespace tokens of one output line. -/
def lineTokens (line : String) : List String :=
  ((splitChars spChar line.data).map String.mk).filter (fun t => t ≠ emptyText)

/-- A token made only of decimal digits. -/
def isNatToken (t : String) : Bool :=
  !t.data.isEmpty && t.data.all Char.isDigit

/-- A token that reads as a decimal number: digits with optional dots. -/
def isNumToken (t : String) : Bool :=
  t.data.any Char.isDigit && t.data.all (fun c => c.isDigit || c = dotChar)

/-- Decimal digits to a natural number. -/
def digitsToNat (l : List Char) : Nat :=
  l.foldl (fun acc c => acc * 10 + (c.toNat - 48)) 0

/-- Modelled from the spec: jobs/parser.py is absent from the snapshot;
section 4.3 has the parser scan for per-player ranked lines carrying
rank, player name and expected-points value.  A line matches when its
first whitespace token is a bare rank number, its last token is a
decimal number, and a name stands between them; lines that do not match
the pattern are ignored, not errors. -/
def parsePlayerLine (line : String) : Option PlayerLine :=
  match lineTokens line with
  | t0 :: rest =>
      match rest.getLast? with
      | some tn =>
          if isNatToken t0 && isNumToken tn && decide (2 ≤ rest.length) then
            some { rank := digitsToNat t0.data,
                   player := String.intercalate spText rest.dropLast,
                   expected_points := tn }
          else none
      | none => none
  | [] => none

/-- The arrow token separating outgoing and incoming players. -/
def arrowTok : String := "->"

/-- Leading text of a cost token. -/
def costPre : String := "cost="

/-- Leading text of a gain token. -/
def gainPre : String := "gain="

/-- Tag of a captain line. -/
def captainTok : String := "Captain:"

/-- Tag of a vice-captain line. -/
def viceTok : String := "Vice-captain:"

/-- Tag of an expected-points total line. -/
def expectedTok : String := "Expected:"

/-- Splits a token list at the first arrow token, when one is there. -/
def splitAtArrow : List String → Option (List String × List String)
  | [] => none
  | t :: ts =>
      if t = arrowTok then some ([], ts)
      else
        match splitAtArrow ts with
        | some (l, r) => some (t :: l, r)
        | none => none

/-- Leading-text check on tokens. -/
def startsWithStr (pre t : String) : Bool := pre.data.isPrefixOf t.data

/-- Removes a leading text from a token. -/
def dropPre (pre t : String) : String := String.mk (t.data.drop pre.data.length)

/-- Modelled from the spec: transfer-suggestion lines carry out, in, cost
and gain fields (section 4.3; worked example in section 8).  A line
matches when an arrow token separates the outgoing and incoming names
and cost and gain tokens follow. -/
def parseTransferLine (line : String) : Option TransferLine :=
  match splitAtArrow (lineTokens line) with
  | some (outToks, rhs) =>
      match rhs.find? (fun t => startsWithStr costPre t),
          rhs.find? (fun t => startsWithStr gainPre t) with
      | some c, some g =>
          let nameToks := rhs.filter
            (fun t => !(startsWithStr costPre t) && !(startsWithStr gainPre t))
          if outToks.isEmpty || nameToks.isEmpty then none
          else some { out_player := String.intercalate spText outToks,
                      in_player := String.intercalate spText nameToks,
                      cost := dropPre costPre c,
                      gain := dropPre gainPre g }
      | _, _ => none
  | none => none

/-- Modelled from the spec: a tagged line, such as the captain selection,
is its tag token followed by the selected text. -/
def parseTagged (tag : String) (line : String) : Option String :=
  match lineTokens line with
  | t0 :: rest =>
      if t0 = tag && !rest.isEmpty then some (String.intercalate spText rest)
      else none
  | [] => none

/-- Modelled from the spec: jobs/parser.py is absent from the snapshot.
Section 4.3: a pure function mapping the captured text of a completed
run to a structured result per command kind; lines that match no pattern
are ignored; when no structured pattern matches at all the result is
generic, carrying the raw text as the summary text. -/
def parseOutput (cmd : Command) (text : String) : ParsedOutput :=
  match cmd with
  | .predict =>
      let ls := splitLines text
      let players := ls.filterMap parsePlayerLine
      if players.isEmpty then .generic text
      else .prediction ls.head? players text
  | .optimize =>
      let ls := splitLines text
      let transfers := ls.filterMap parseTransferLine
      let captain := (ls.filterMap (parseTagged captainTok)).head?
      let vice := (ls.filterMap (parseTagged viceTok)).head?
      let expected := (ls.filterMap (parseTagged expectedTok)).head?
      if transfers.isEmpty && captain.isNone then .generic text
      else .optimisation transfers captain vice expected text
  | _ => .generic text

/-- C7: the output parsing stage applied to the empty capture returns,
for every command kind, the generic result whose summary text is the
empty string; it is a total function, so a run with no output at all
parses without error. -/
theorem c7_parse_empty (cmd : Command) :
    parseOutput cmd emptyText = ParsedOutput.generic emptyText ∧
    (parseOutput cmd emptyText).summaryText = emptyText := by
  cases cmd <;> exact ⟨rfl, rfl⟩

/-- Chip-week entry built by runOptimisation in OptimisationPage.js: the
key is set only when parseInt of its input is greater than 0. -/
def chipParam (input : String) : Option JSNum :=
  if (jsParseInt input).gtZero then some (jsParseInt input) else none

/-- The request parameters built by runOptimisation in
OptimisationPage.js: weeks_ahead is always set to parseInt of its input,
and each chip-week key is set only when its input parses greater
than 0. -/
def runOptimisationParams (weeksAhead wildcardWeek freeHitWeek tripleCaptainWeek
    benchBoostWeek : String) : JobParams :=
  { weeks_ahead := some (jsParseInt weeksAhead),
    wildcard_week := chipParam wildcardWeek,
    free_hit_week := chipParam freeHitWeek,
    triple_captain_week := chipParam tripleCaptainWeek,
    bench_boost_week := chipParam benchBoostWeek }

/-- Helper: the chip entry is set exactly when parseInt of the input is
that value and it is greater than 0. -/
theorem chipParam_eq_some (input : String) (n : JSNum) :
    chipParam input = some n ↔ jsParseInt input = n ∧ n.gtZero = true := by
  unfold chipParam
  by_cases h : (jsParseInt input).gtZero = true
  · rw [if_pos h]
    simp only [Option.some.injEq]
    exact ⟨fun he => ⟨he, he ▸ h⟩, fun hp => hp.1⟩
  · rw [if_neg h]
    exact ⟨fun hc => Option.noConfusion hc, fun hp => absurd (hp.1 ▸ hp.2) h⟩

/-- Helper: a chip entry that is set holds the parsed integer and that
integer is at least 1. -/
theorem chipParam_pos (w : String) (n : JSNum) (h : chipParam w = some n) :
    jsParseInt w = n ∧ ∃ v : Int, n = JSNum.int v ∧ 1 ≤ v := by
  have hp := (chipParam_eq_some w n).mp h
  refine ⟨hp.1, ?_⟩
  cases n with
  | nan => simp [JSNum.gtZero] at hp
  | int v =>
      refine ⟨v, rfl, ?_⟩
      have h2 := hp.2
      simp only [JSNum.gtZero, decide_eq_true_eq] at h2
      omega

/-- Helper: an input parsing to 0 leaves the chip key absent. -/
theorem chipParam_zero (w : String) (h : jsParseInt w = JSNum.int 0) :
    chipParam w = none := by
  unfold chipParam
  rw [h]
  simp [JSNum.gtZero]

/-- C9: every optimisation request built by the UI carries the
weeks_ahead key; a chip-week key is present only when its input parses
to an integer strictly greater than 0, so every chip-week value sent is
at least 1, and an input parsing to 0 leaves the key absent. -/
theorem c9_optimisation_request (wa w1 w2 w3 w4 : String) :
    (runOptimisationParams wa w1 w2 w3 w4).weeks_ahead ≠ none ∧
    (∀ n, (runOptimisationParams wa w1 w2 w3 w4).wildcard_week = some n →
      jsParseInt w1 = n ∧ ∃ v : Int, n = JSNum.int v ∧ 1 ≤ v) ∧
    (∀ n, (runOptimisationParams wa w1 w2 w3 w4).free_hit_week = some n →
      jsParseInt w2 = n ∧ ∃ v : Int, n = JSNum.int v ∧ 1 ≤ v) ∧
    (∀ n, (runOptimisationParams wa w1 w2 w3 w4).triple_captain_week = some n →
      jsParseInt w3 = n ∧ ∃ v : Int, n = JSNum.int v ∧ 1 ≤ v) ∧
    (∀ n, (runOptimisationParams wa w1 w2 w3 w4).bench_boost_week = some n →
      jsParseInt w4 = n ∧ ∃ v : Int, n = JSNum.int v ∧ 1 ≤ v) ∧
    (jsParseInt w1 = JSNum.int 0 →
      (runOptimisationParams wa w1 w2 w3 w4).wildcard_week = none) ∧
    (jsParseInt w2 = JSNum.int 0 →
      (runOptimisationParams wa w1 w2 w3 w4).free_hit_week = none) ∧
    (jsParseInt w3 = JSNum.int 0 →
      (runOptimisationParams wa w1 w2 w3 w4).triple_captain_week = none) ∧
    (jsParseInt w4 = JSNum.int 0 →
      (runOptimisationParams wa w1 w2 w3 w4).bench_boost_week = none) := by
  refine ⟨?_, ?_, ?_, ?_, ?_, ?_, ?_, ?_, ?_⟩
  · simp [runOptimisationParams]
  · exact fun n h => chipParam_pos w1 n h
  · exact fun n h => chipParam_pos w2 n h
  · exact fun n h => chipParam_pos w3 n h
  · exact fun n h => chipParam_pos w4 n h
  · exact fun h => chipParam_zero w1 h
  · exact fun h => chipParam_zero w2 h
  · exact fun h => chipParam_zero w3 h
  · exact fun h => chipParam_zero w4 h

/-- Example weeks-ahead input text. -/
def sThree : String := "3"

/-- Example chip input text parsing to 5. -/
def sFive : String := "5"

/-- Example chip input text parsing to 0. -/
def sZero : String := "0"

/-- C9 witness: with inputs 3, 5 and 0 the wildcard key carries 5 and
the zero chips are absent. -/
theorem c9_optimisation_request_witness :
    (jsParseInt sFive = JSNum.int 5 ∧
      ∃ v : Int, JSNum.int 5 = JSNum.int v ∧ 1 ≤ v) ∧
    (runOptimisationParams sThree sFive sZero sZero sZero).free_hit_week = none := by
  constructor
  · exact (c9_optimisation_request sThree sFive sZero sZero sZero).2.1
      (JSNum.int 5) (by decide)
  · exact (c9_optimisation_request sThree sFive sZero sZero sZero).2.2.2.2.2.2.1
      (by decide)

/-- Modelled from the spec: per-command weeks-ahead constraint of submit
validation (section 4.1: weeks-ahead in [1,6]); the prediction and
optimisation commands require the parameter, the others accept it only
in range when present. -/
def weeksAheadOk : Command → Option JSNum → Bool
  | .predict, some (.int w) => decide (1 ≤ w) && decide (w ≤ 6)
  | .predict, _ => false
  | .optimize, some (.int w) => decide (1 ≤ w) && decide (w ≤ 6)
  | .optimize, _ => false
  | _, none => true
  | _, some (.int w) => decide (1 ≤ w) && decide (w ≤ 6)
  | _, some .nan => false

/-- Modelled from the spec: chip-week constraint of submit validation
(section 4.1: chip weeks at least 0 or absent). -/
def chipWeekOk : Option JSNum → Bool
  | none => true
  | some (.int w) => decide (0 ≤ w)
  | some .nan => false

/-- Modelled from the spec: parameter validation of submit (section 4.1);
jobs/queue.py is not in the snapshot. -/
def validParams (cmd : Command) (p : JobParams) : Bool :=
  weeksAheadOk cmd p.weeks_ahead && chipWeekOk p.wildcard_week &&
    chipWeekOk p.free_hit_week && chipWeekOk p.triple_captain_week &&
    chipWeekOk p.bench_boost_week

/-- The queue-facing error taxonomy of section 7. -/
inductive QueueError
  | validationError
  | notFoundError
  | invalidStateError
  deriving DecidableEq, Repr

/-- Modelled from the spec: the durable queue state, the persisted job
documents in creation order (jobs/queue.py is not in the snapshot). -/
structure QueueState where
  jobs : List Job
  deriving DecidableEq, Repr

/-- A freshly created job document: pending, empty logs, zero retries,
no timestamps beyond creation (sections 3 and 4.1). -/
def newJob (id : Nat) (cmd : Command) (p : JobParams) (now maxRetries : Nat) : Job :=
  { id := id, command := cmd, parameters := p, status := .pending, logs := [],
    output := none, error := none, retry_count := 0, max_retries := maxRetries,
    created_at := now, started_at := none, completed_at := none }

/-- Modelled from the spec: submit validates the parameters and either
persists a new pending job or rejects with ValidationError leaving the
store untouched (sections 4.1, 7 and 8; jobs/queue.py is not in the
snapshot). -/
def submit (s : QueueState) (cmd : Command) (p : JobParams) (id now maxRetries : Nat) :
    QueueState × Except QueueError Job :=
  if validParams cmd p then
    (⟨s.jobs ++ [newJob id cmd p now maxRetries]⟩, .ok (newJob id cmd p now maxRetries))
  else (s, .error .validationError)

/-- C5: a submission whose parameters break the per-command constraints,
such as weeks-ahead 0 or 7 or a negative chip week, fails with
ValidationError and leaves the persisted store exactly as it was, so no
job exists that the retry machinery could ever pick up. -/
theorem c5_submit_invalid (s : QueueState) (cmd : Command) (p : JobParams)
    (id now maxRetries : Nat)
    (h : p.weeks_ahead = some (JSNum.int 0) ∨ p.weeks_ahead = some (JSNum.int 7) ∨
      (∃ w : Int, w < 0 ∧
        (p.wildcard_week = some (JSNum.int w) ∨ p.free_hit_week = some (JSNum.int w) ∨
         p.triple_captain_week = some (JSNum.int w) ∨
         p.bench_boost_week = some (JSNum.int w)))) :
    (submit s cmd p id now maxRetries).1 = s ∧
    (submit s cmd p id now maxRetries).2 = .error QueueError.validationError := by
  have hw0 : ∀ c : Command, weeksAheadOk c (some (JSNum.int 0)) = false := by
    intro c; cases c <;> rfl
  have hw7 : ∀ c : Command, weeksAheadOk c (some (JSNum.int 7)) = false := by
    intro c; cases c <;> rfl
  have hcn : ∀ w : Int, w < 0 → chipWeekOk (some (JSNum.int w)) = false := by
    intro w hw
    simp only [chipWeekOk, decide_eq_false_iff_not]
    omega
  have hv : validParams cmd p = false := by
    rcases h with h1 | h1 | ⟨w, hneg, hx⟩
    · unfold validParams
      rw [h1, hw0 cmd]
      simp
    · unfold validParams
      rw [h1, hw7 cmd]
      simp
    · rcases hx with hx | hx | hx | hx <;>
        (unfold validParams; rw [hx, hcn w hneg]; simp)
  constructor
  · simp [submit, hv]
  · simp [submit, hv]

/-- Invalid parameters object for the C5 witness: weeks-ahead 0. -/
def badParams : JobParams := ⟨some (JSNum.int 0), none, none, none, none⟩

/-- The empty queue. -/
def emptyQueue : QueueState := ⟨[]⟩

/-- C5 witness: submitting an optimisation with weeks-ahead 0 against
the empty store is rejected and persists nothing. -/
theorem c5_submit_invalid_witness :
    (submit emptyQueue Command.optimize badParams 1 0 3).1 = emptyQueue ∧
    (submit emptyQueue Command.optimize badParams 1 0 3).2
      = .error QueueError.validationError :=
  c5_submit_invalid emptyQueue Command.optimize badParams 1 0 3 (Or.inl rfl)

/-- Modelled from the spec: cancel by job status (section 4.1): a pending
job goes directly to cancelled, a running job goes to cancelling with
the executor to finish the transition, a job already being cancelled is
left alone, and a terminal job is rejected with InvalidStateError
(jobs/queue.py is not in the snapshot; the frontend caller is cancelJob
in JobsPage.js). -/
def cancelJob (now : Nat) (j : Job) : Except QueueError Job :=
  match j.status with
  | .pending => .ok { j with status := .cancelled, completed_at := some now }
  | .running => .ok { j with status := .cancelling }
  | .cancelling => .ok j
  | .completed => .error .invalidStateError
  | .failed => .error .invalidStateError
  | .cancelled => .error .invalidStateError

/-- Modelled from the spec: the executor completes a requested
cancellation, taking a cancelling job to cancelled (section 4.1 and
section 4.2 step 5; jobs/executor.py is not in the snapshot). -/
def completeCancellation (now : Nat) (j : Job) : Job :=
  if j.status = .cancelling then
    { j with status := .cancelled, completed_at := some now }
  else j

/-- C4: cancel behaves by status: a pending job transitions directly to
cancelled and its started_at stays unset; a running job transitions to
cancelling and the executor then completes the transition to cancelled;
a terminal job is rejected with InvalidStateError rather than silently
ignored. -/
theorem c4_cancel_by_status (now later : Nat) (j : Job) :
    (j.status = .pending →
      cancelJob now j = .ok { j with status := .cancelled, completed_at := some now } ∧
      (j.started_at = none → ∀ jc, cancelJob now j = .ok jc → jc.started_at = none)) ∧
    (j.status = .running →
      cancelJob now j = .ok { j with status := .cancelling } ∧
      (completeCancellation later { j with status := .cancelling }).status
        = .cancelled) ∧
    (j.status.isTerminal = true →
      cancelJob now j = .error QueueError.invalidStateError) := by
  refine ⟨?_, ?_, ?_⟩
  · intro hp
    have hc : cancelJob now j
        = .ok { j with status := .cancelled, completed_at := some now } := by
      unfold cancelJob
      rw [hp]
    refine ⟨hc, ?_⟩
    intro hstart jc hjc
    rw [hc] at hjc
    injection hjc with hj
    rw [← hj]
    simpa using hstart
  · intro hr
    have hc : cancelJob now j = .ok { j with status := .cancelling } := by
      unfold cancelJob
      rw [hr]
    refine ⟨hc, ?_⟩
    simp [completeCancellation]
  · intro ht
    cases hst : j.status with
    | pending => rw [hst] at ht; simp [Status.isTerminal] at ht
    | running => rw [hst] at ht; simp [Status.isTerminal] at ht
    | cancelling => rw [hst] at ht; simp [Status.isTerminal] at ht
    | completed => unfold cancelJob; rw [hst]
    | failed => unfold cancelJob; rw [hst]
    | cancelled => unfold cancelJob; rw [hst]

/-- Example pending job for the C4 witness. -/
def jobPendEx : Job :=
  { id := 2, command := .optimize, parameters := noParams, status := .pending,
    logs := [], output := none, error := none, retry_count := 0, max_retries := 3,
    created_at := 0, started_at := none, completed_at := none }

/-- Example running job for the C4 witness. -/
def jobRunEx : Job := { jobPendEx with id := 3, status := .running, started_at := some 1 }

/-- C4 witness: cancel applied to concrete pending, running and
completed jobs. -/
theorem c4_cancel_by_status_witness :
    cancelJob 5 jobPendEx
      = .ok { jobPendEx with status := .cancelled, completed_at := some 5 } ∧
    cancelJob 5 jobRunEx = .ok { jobRunEx with status := .cancelling } ∧
    cancelJob 5 jobDoneEx = .error QueueError.invalidStateError :=
  ⟨((c4_cancel_by_status 5 6 jobPendEx).1 rfl).1,
   ((c4_cancel_by_status 5 6 jobRunEx).2.1 rfl).1,
   (c4_cancel_by_status 5 6 jobDoneEx).2.2 rfl⟩

/-- Modelled from the spec: the worker marks the selected pending job
running and sets started_at (section 4.1 worker loop; jobs/queue.py is
not in the snapshot). -/
def markRunning (now : Nat) (j : Job) : Job :=
  { j with status := .running, started_at := some now }

/-- Modelled from the spec: failure handling of the worker loop (section
4.1): below max_retries the job is re-enqueued pending with retry_count
incremented and started_at cleared for the fresh attempt; otherwise it
becomes failed carrying the error message and completion time. -/
def onProcessFailure (errMsg : String) (now : Nat) (j : Job) : Job :=
  if j.retry_count < j.max_retries then
    { j with status := .pending, retry_count := j.retry_count + 1, started_at := none }
  else
    { j with status := .failed, error := some errMsg, completed_at := some now }

/-- One attempt of a job whose external process always exits nonzero:
the worker picks it up, the run fails, the failure policy applies. -/
def failingAttempt (errMsg : String) (now : Nat) (j : Job) : Job :=
  onProcessFailure errMsg now (markRunning now j)

/-- Iterated failing attempts. -/
def failingRun (errMsg : String) (now : Nat) : Nat → Job → Job
  | 0, j => j
  | n + 1, j => failingRun errMsg now n (failingAttempt errMsg now j)

/-- Helper: as long as the retry budget is not exhausted, each failing
attempt re-enqueues the job pending with the retry count incremented. -/
theorem failingRun_props (e : String) (t : Nat) :
    ∀ (k : Nat) (j : Job), j.retry_count + k ≤ j.max_retries →
      (failingRun e t k j).retry_count = j.retry_count + k ∧
      (failingRun e t k j).max_retries = j.max_retries ∧
      (failingRun e t k j).status = (if k = 0 then j.status else .pending) := by
  intro k
  induction k with
  | zero =>
      intro j h
      simp [failingRun]
  | succ n ih =>
      intro j h
      have hlt : j.retry_count < j.max_retries := by omega
      have h1 : (failingAttempt e t j).retry_count = j.retry_count + 1 := by
        simp [failingAttempt, onProcessFailure, markRunning, hlt]
      have h2 : (failingAttempt e t j).max_retries = j.max_retries := by
        simp [failingAttempt, onProcessFailure, markRunning, hlt]
      have h3 : (failingAttempt e t j).status = .pending := by
        simp [failingAttempt, onProcessFailure, markRunning, hlt]
      have hb : (failingAttempt e t j).retry_count + n
          ≤ (failingAttempt e t j).max_retries := by
        rw [h1, h2]
        omega
      obtain ⟨r1, r2, r3⟩ := ih (failingAttempt e t j) hb
      have hred : failingRun e t (n + 1) j = failingRun e t n (failingAttempt e t j) := rfl
      refine ⟨?_, ?_, ?_⟩
      · rw [hred, r1, h1]
        omega
      · rw [hred, r2, h2]
      · rw [hred, r3]
        by_cases hn : n = 0 <;> simp [hn, h3]

/-- C3: a job whose external process exits nonzero on every attempt is
re-enqueued pending with retry_count incremented while the budget lasts:
after max_retries re-enqueues it is still pending with retry_count equal
to max_retries, and the next failing attempt makes it terminal failed,
with retry_count equal to max_retries, the error recorded, and the
completion time set. -/
theorem c3_retry_until_failed (e : String) (t : Nat) (j : Job)
    (hs : j.status = .pending) (hr : j.retry_count = 0) :
    (failingRun e t j.max_retries j).status = .pending ∧
    (failingRun e t j.max_retries j).retry_count = j.max_retries ∧
    (failingAttempt e t (failingRun e t j.max_retries j)).status = .failed ∧
    (failingAttempt e t (failingRun e t j.max_retries j)).retry_count = j.max_retries ∧
    (failingAttempt e t (failingRun e t j.max_retries j)).error = some e ∧
    (failingAttempt e t (failingRun e t j.max_retries j)).completed_at = some t := by
  obtain ⟨r1, r2, r3⟩ := failingRun_props e t j.max_retries j (by omega)
  rw [hr] at r1
  simp only [Nat.zero_add] at r1
  have hstat : (failingRun e t j.max_retries j).status = .pending := by
    rw [r3]
    by_cases hm : j.max_retries = 0 <;> simp [hm, hs]
  have hnot : ¬ ((failingRun e t j.max_retries j).retry_count
      < (failingRun e t j.max_retries j).max_retries) := by
    rw [r1, r2]
    omega
  refine ⟨hstat, r1, ?_, ?_, ?_, ?_⟩ <;>
    simp [failingAttempt, onProcessFailure, markRunning, r1, r2]

/-- Example job with a retry budget of 2 for the C3 witness. -/
def jobRetryEx : Job := { jobPendEx with id := 4, max_retries := 2 }

/-- C3 witness: with a budget of 2 the concrete job is still pending
with retry_count 2 after two failing attempts, and the third failing
attempt leaves it failed with retry_count 2. -/
theorem c3_retry_until_failed_witness :
    (failingRun lineA 9 jobRetryEx.max_retries jobRetryEx).status = .pending ∧
    (failingRun lineA 9 jobRetryEx.max_retries jobRetryEx).retry_count
      = jobRetryEx.max_retries ∧
    (failingAttempt lineA 9 (failingRun lineA 9 jobRetryEx.max_retries jobRetryEx)).status
      = .failed :=
  ⟨(c3_retry_until_failed lineA 9 jobRetryEx rfl rfl).1,
   (c3_retry_until_failed lineA 9 jobRetryEx rfl rfl).2.1,
   (c3_retry_until_failed lineA 9 jobRetryEx rfl rfl).2.2.1⟩

/-- Number of active jobs, those running or cancelling, in a queue state. -/
def activeCount (s : QueueState) : Nat :=
  (s.jobs.filter (fun j => j.status.isActive)).length

/-- Modelled from the spec: the transitions the queue and the executor
may apply to one persisted job besides worker pick-up (sections 4.1 and
4.2): cancellation of a pending or running job, the executor finishing a
run as completed, as failed with the retry policy applied, or as
cancelled, log appends on the running job, and log clearing. -/
inductive JobTransition : Job → Job → Prop
  | cancelPending (j : Job) (now : Nat) (h : j.status = .pending) :
      JobTransition j { j with status := .cancelled, completed_at := some now }
  | cancelRunning (j : Job) (h : j.status = .running) :
      JobTransition j { j with status := .cancelling }
  | finishSuccess (j : Job) (out : ParsedOutput) (now : Nat) (h : j.status = .running) :
      JobTransition j
        { j with status := .completed, output := some out, completed_at := some now }
  | finishFailure (j : Job) (e : String) (now : Nat) (h : j.status = .running) :
      JobTransition j (onProcessFailure e now j)
  | finishCancelled (j : Job) (now : Nat) (h : j.status = .cancelling) :
      JobTransition j (completeCancellation now j)
  | appendLine (j : Job) (cap : Nat) (line : String) (h : j.status = .running) :
      JobTransition j { j with logs := appendLogLine cap j.logs line }
  | clearLogs (j : Job) :
      JobTransition j { j with logs := [] }

/-- Modelled from the spec: one observable step of the whole system
(sections 4.1 and 5): a validated submission appends a new pending job,
the idle single worker marks a pending job running, a per-job transition
applies, or all logs are cleared. -/
inductive QStep : QueueState → QueueState → Prop
  | submitStep (s : QueueState) (cmd : Command) (p : JobParams)
      (id now maxRetries : Nat) (h : validParams cmd p = true) :
      QStep s ⟨s.jobs ++ [newJob id cmd p now maxRetries]⟩
  | startStep (l r : List Job) (j : Job) (now : Nat)
      (hp : j.status = .pending)
      (hidle : activeCount ⟨l ++ j :: r⟩ = 0) :
      QStep ⟨l ++ j :: r⟩ ⟨l ++ markRunning now j :: r⟩
  | jobStep (l r : List Job) (j j' : Job) (t : JobTransition j j') :
      QStep ⟨l ++ j :: r⟩ ⟨l ++ j' :: r⟩
  | clearAllStep (s : QueueState) :
      QStep s ⟨s.jobs.map (fun j => { j with logs := [] })⟩

/-- The initial, empty system state. -/
def initialState : QueueState := ⟨[]⟩

/-- States reachable from the initial state through system steps. -/
def Reachable (s : QueueState) : Prop :=
  Relation.ReflTransGen QStep initialState s

/-- Helper: no per-job transition makes an inactive job active. -/
theorem jobTransition_active (j j' : Job) (t : JobTransition j j')
    (ha : j'.status.isActive = true) : j.status.isActive = true := by
  cases t with
  | cancelPending now h => simp [Status.isActive] at ha
  | cancelRunning h => rw [h]; rfl
  | finishSuccess out now h => simp [Status.isActive] at ha
  | finishFailure e now h =>
      unfold onProcessFailure at ha
      by_cases hlt : j.retry_count < j.max_retries
      · simp [hlt, Status.isActive] at ha
      · simp [hlt, Status.isActive] at ha
  | finishCancelled now h =>
      unfold completeCancellation at ha
      simp [h, Status.isActive] at ha
  | appendLine cap line h => simpa using ha
  | clearLogs => simpa using ha

/-- Helper: the active count of a decomposed job list. -/
theorem activeCount_decomp (l r : List Job) (j : Job) :
    activeCount ⟨l ++ j :: r⟩
      = activeCount ⟨l⟩ + (if j.status.isActive = true then 1 else 0)
        + activeCount ⟨r⟩ := by
  unfold activeCount
  simp only [List.filter_append, List.length_append, List.filter_cons]
  by_cases hj : j.status.isActive = true <;> simp [hj] <;> omega

/-- Helper: every system step preserves the at-most-one-active bound. -/
theorem qstep_preserves (s s' : QueueState) (st : QStep s s')
    (h : activeCount s ≤ 1) : activeCount s' ≤ 1 := by
  cases st with
  | submitStep s0 cmd p jid now maxRetries hv =>
      have hd := activeCount_decomp s.jobs [] (newJob jid cmd p now maxRetries)
      rw [hd]
      have h0 : activeCount ⟨([] : List Job)⟩ = 0 := rfl
      have hnew : (newJob jid cmd p now maxRetries).status.isActive = false := rfl
      rw [h0, hnew]
      simpa using h
  | startStep l r j now hp hidle =>
      have hd0 := activeCount_decomp l r j
      have hsum : activeCount ⟨l⟩ + (if j.status.isActive = true then 1 else 0)
          + activeCount ⟨r⟩ = 0 := by rw [← hd0]; exact hidle
      have hd1 := activeCount_decomp l r (markRunning now j)
      have hrun : (if (markRunning now j).status.isActive = true then 1 else 0) = 1 := rfl
      rw [hd1, hrun]
      omega
  | jobStep l r j j' t =>
      have hd0 := activeCount_decomp l r j
      have hd1 := activeCount_decomp l r j'
      rw [hd1]
      rw [hd0] at h
      have hmono : (if j'.status.isActive = true then 1 else 0)
          ≤ (if j.status.isActive = true then 1 else 0) := by
        by_cases hj : j'.status.isActive = true
        · rw [if_pos hj, if_pos (jobTransition_active j j' t hj)]
        · rw [if_neg hj]
          omega
      omega
  | clearAllStep s0 =>
      have hl : ∀ js : List Job,
          ((js.map (fun j => { j with logs := ([] : List String) })).filter
            (fun j => j.status.isActive)).length
          = (js.filter (fun j => j.status.isActive)).length := by
        intro js
        induction js with
        | nil => rfl
        | cons a as ih =>
            simp only [List.map_cons, List.filter_cons]
            by_cases ha : a.status.isActive = true
            · simp [ha, ih]
            · simp [ha, ih]
      unfold activeCount at h ⊢
      rw [hl s.jobs]
      exact h

/-- C2: across all reachable system states, at most one job is running
or cancelling at any observed instant, and every queue and executor
operation preserves this single-active-job bound. -/
theorem c2_single_active_invariant :
    (∀ s : QueueState, Reachable s → activeCount s ≤ 1) ∧
    (∀ s s' : QueueState, QStep s s' → activeCount s ≤ 1 → activeCount s' ≤ 1) := by
  constructor
  · intro s h
    induction h with
    | refl => decide
    | tail hab hbc ih => exact qstep_preserves _ _ hbc ih
  · intro s s' hst h
    exact qstep_preserves s s' hst h

/-- C2 witness: the invariant applied at the initial state, which is
reachable by the empty step sequence. -/
theorem c2_single_active_invariant_witness : activeCount initialState ≤ 1 :=
  c2_single_active_invariant.1 initialState Relation.ReflTransGen.refl

/-- Modelled from the spec: the possible outcomes of one attempt at a
job (sections 4.1, 4.2 and 5). -/
inductive RunOutcome
  | success
  | procFailure
  | cancelledBeforeStart
  | cancelledMidRun
  deriving DecidableEq, Repr

/-- Modelled from the spec: whether cancellation was requested for the
outcome. -/
def RunOutcome.cancelRequested : RunOutcome → Bool
  | .cancelledBeforeStart => true
  | .cancelledMidRun => true
  | _ => false

/-- Modelled from the spec: the authoritative sequence of status events a
subscriber observes for one attempt of a job (section 5 ordering
guarantees and the section 4.2 state machine; the status publications of
the absent jobs/queue.py and jobs/websocket_manager.py). -/
def statusTrace : RunOutcome → List Status
  | .success => [.pending, .running, .completed]
  | .procFailure => [.pending, .running, .failed]
  | .cancelledBeforeStart => [.pending, .cancelled]
  | .cancelledMidRun => [.pending, .running, .cancelling, .cancelled]

/-- The state-machine edges of section 4.2: pending to running or
directly to cancelled, running to a terminal or to cancelling,
cancelling to cancelled. -/
def statusEdge (a b : Status) : Bool :=
  match a, b with
  | .pending, .running => true
  | .pending, .cancelled => true
  | .running, .completed => true
  | .running, .failed => true
  | .running, .cancelling => true
  | .cancelling, .cancelled => true
  | _, _ => false

/-- Helper: processing a batch of live log events appends the messages
at the end of the view in arrival order. -/
theorem foldl_onMessage_log (ms : List String) :
    ∀ st : ViewerState,
      (List.foldl onMessage st (ms.map WsEvent.log)).logs = st.logs ++ ms := by
  induction ms with
  | nil => intro st; simp
  | cons m ms ih =>
      intro st
      simp only [List.map_cons, List.foldl_cons]
      rw [ih]
      simp [onMessage]

/-- C8: ordering guarantees: the persisted logs are the capped suffix of
the emitted lines in emitted order; a subscriber receives log lines
appended at the end of its view in arrival order, and no event reorders
previously received lines; every observable status trace runs pending,
running, then a terminal status along the state-machine edges, with
cancelling appearing only when cancellation was requested; and a job is
in cancelling only after a cancel request on a running job. -/
theorem c8_ordering :
    (∀ (cap : Nat) (emitted : List String),
      List.foldl (appendLogLine cap) [] emitted
        = emitted.drop (emitted.length - cap)) ∧
    (∀ (st : ViewerState) (ms : List String),
      (List.foldl onMessage st (ms.map WsEvent.log)).logs = st.logs ++ ms) ∧
    (∀ (st : ViewerState) (e : WsEvent), ∃ tl,
      (onMessage st e).logs = st.logs ++ tl) ∧
    (∀ o : RunOutcome,
      (statusTrace o).head? = some Status.pending ∧
      List.Chain' (fun a b => statusEdge a b = true) (statusTrace o) ∧
      (∃ sl, (statusTrace o).getLast? = some sl ∧ sl.isTerminal = true) ∧
      (Status.cancelling ∈ statusTrace o → o.cancelRequested = true)) ∧
    (∀ (j j' : Job), JobTransition j j' → j'.status = Status.cancelling →
      j.status = Status.running ∨ j.status = Status.cancelling) := by
  refine ⟨?_, ?_, ?_, ?_, ?_⟩
  · intro cap emitted
    have h := foldl_appendLogLine cap emitted [] (Nat.zero_le cap)
    simpa using h
  · intro st ms
    exact foldl_onMessage_log ms st
  · intro st e
    cases e with
    | log m => exact ⟨[m], rfl⟩
    | statusEvent s => exact ⟨[], by simp [onMessage]⟩
  · intro o
    cases o <;>
      exact ⟨rfl,
        by simp [statusTrace, List.chain'_cons, List.chain'_singleton, statusEdge],
        ⟨_, rfl, rfl⟩, by decide⟩
  · intro j j' t hc
    cases t with
    | cancelPending now h => simp at hc
    | cancelRunning h => exact Or.inl h
    | finishSuccess out now h => simp at hc
    | finishFailure e now h =>
        unfold onProcessFailure at hc
        by_cases hlt : j.retry_count < j.max_retries
        · simp [hlt] at hc
        · simp [hlt] at hc
    | finishCancelled now h => exact Or.inr h
    | appendLine cap line h => exact Or.inl h
    | clearLogs =>
        simp at hc
        exact Or.inr hc

/-- C8 witness: two live log lines arrive in order on a fresh view, the
mid-run cancellation outcome has cancellation requested, and a concrete
cancel request on a running job enters cancelling from running. -/
theorem c8_ordering_witness :
    (List.foldl onMessage viewerInitial ([lineA, lineB].map WsEvent.log)).logs
      = viewerInitial.logs ++ [lineA, lineB] ∧
    RunOutcome.cancelledMidRun.cancelRequested = true ∧
    (jobRunEx.status = Status.running ∨ jobRunEx.status = Status.cancelling) :=
  ⟨c8_ordering.2.1 viewerInitial [lineA, lineB],
   (c8_ordering.2.2.2.1 RunOutcome.cancelledMidRun).2.2.2 (by decide),
   c8_ordering.2.2.2.2 jobRunEx { jobRunEx with status := .cancelling }
     (JobTransition.cancelRunning jobRunEx rfl) rfl⟩

/-- C7 witness: the parser applied to the empty capture for the
prediction command. -/
theorem c7_parse_empty_witness :
    parseOutput Command.predict emptyText = ParsedOutput.generic emptyText :=
  (c7_parse_empty Command.predict).1
